import Mathlib

set_option maxRecDepth 100000

/-!
Shallow embedding of the easy-vm stack machine (src/main.rs).

Machine integers (`u8`, `usize`) are modelled as `Nat` with explicit `% 256`
where 8-bit wrapping matters.  Rust panics (stack overflow, stack underflow,
division by zero, array index out of bounds) are modelled as `Except` errors;
the `unsafe` `transmute` of an invalid `StdFunc` discriminant is modelled as a
distinct `undefinedBehavior` error.  Host output (`print!`) is modelled as a
list of output events carried in the machine state.
-/

/-- Capacity of the byte stack (`const STACK_SIZE: usize = 128`). -/
def STACK_SIZE : Nat := 128

/-- The instruction set (`enum Instruction`).  Payload bytes are `Nat`s that
are reduced `% 256` where the Rust type is `u8`; string payloads keep their
characters, truncated to bytes (`chr as u8`) when pushed. -/
inductive Instruction where
  | Push (value : Nat)
  | PushStr (value : String)
  | Pop
  | Add
  | Sub
  | Mul
  | Div
  | JmpEq (location : Nat)
  | JmpNeq (location : Nat)
  | Jmp (location : Nat)
  | StdCall (id : Nat)
  | Interupt
deriving DecidableEq

/-- `struct Program { instructions: Vec<Instruction> }`. -/
structure Program where
  instructions : List Instruction
deriving DecidableEq

/-- `Program::new`. -/
def Program.new : Program := ⟨[]⟩

/-- `Program::push`. -/
def Program.push (p : Program) (instruction : Instruction) : Program :=
  ⟨p.instructions ++ [instruction]⟩

/-- `Program::get`: `self.instructions.get(index).cloned().unwrap_or(Instruction::Interupt)`. -/
def Program.get (p : Program) (index : Nat) : Instruction :=
  p.instructions.getD index Instruction.Interupt

/-- The fatal conditions of the interpreter.  The first three correspond to the
`panic!` calls (and the divide-by-zero panic of `/`); `indexOutOfBounds` is the
panic of `self.stack[self.stack_pointer]` with an out-of-range index;
`undefinedBehavior` marks `transmute` of a `u8` that is no `StdFunc`
discriminant. -/
inductive VMError where
  | stackOverflow
  | stackUnderflow
  | divisionByZero
  | indexOutOfBounds
  | undefinedBehavior
deriving DecidableEq

/-- One host-output event (`print!`): a byte printed as a decimal number
(`StdFunc::PrintU8`) or as a character (`PrintChar` / `PrintString`). -/
inductive OutEvent where
  | printU8 (value : Nat)
  | printChar (value : Nat)
deriving DecidableEq

/-- `struct VM`: the 128-byte stack array, the stack cursor, the program
cursor, the overflow flag — plus the modelled output stream. -/
structure VM where
  stack : List Nat
  stack_pointer : Nat
  program_pointer : Nat
  overflow : Bool
  output : List OutEvent
deriving DecidableEq

/-- `VM::new`: all-zero stack, cursors at zero, flag clear. -/
def VM.new : VM :=
  { stack := List.replicate STACK_SIZE 0
    stack_pointer := 0
    program_pointer := 0
    overflow := false
    output := [] }

/-- 8-bit truncation, the semantics of `as u8` / wrapping results. -/
def wrap8 (n : Nat) : Nat := n % 256

/-- `u8::overflowing_add` on byte values. -/
def overflowing_add (a b : Nat) : Nat × Bool :=
  ((a + b) % 256, decide (256 ≤ a + b))

/-- `u8::overflowing_sub` on byte values. -/
def overflowing_sub (a b : Nat) : Nat × Bool :=
  ((a + 256 - b) % 256, decide (a < b))

/-- `VM::stack_push`: fails with `stackOverflow` when the cursor has reached
`STACK_SIZE`, otherwise writes at the cursor and increments it. -/
def VM.stack_push (vm : VM) (value : Nat) : Except VMError VM :=
  if STACK_SIZE ≤ vm.stack_pointer then
    .error .stackOverflow
  else
    .ok { vm with
          stack := vm.stack.set vm.stack_pointer value
          stack_pointer := vm.stack_pointer + 1 }

/-- `VM::stack_pop`: fails with `stackUnderflow` on an empty stack, otherwise
decrements the cursor and returns the byte there. -/
def VM.stack_pop (vm : VM) : Except VMError (Nat × VM) :=
  if vm.stack_pointer = 0 then
    .error .stackUnderflow
  else
    .ok (vm.stack.getD (vm.stack_pointer - 1) 0,
         { vm with stack_pointer := vm.stack_pointer - 1 })

/-- Advance the program cursor by one (the `self.program_pointer += 1` at the
end of `execute_one`). -/
def VM.advance (vm : VM) : VM :=
  { vm with program_pointer := vm.program_pointer + 1 }

/-- Push a list of bytes in order (the `for chr in value.chars().rev()` loop
of `PushStr`). -/
def VM.pushList (vm : VM) : List Nat → Except VMError VM
  | [] => .ok vm
  | c :: cs => do
    let vm' ← vm.stack_push c
    vm'.pushList cs

instance {ε α : Type} [DecidableEq ε] [DecidableEq α] : DecidableEq (Except ε α) := fun a b =>
  match a, b with
  | .error x, .error y =>
    if h : x = y then .isTrue (congrArg Except.error h)
    else .isFalse (fun hc => h (Except.error.inj hc))
  | .error _, .ok _ => .isFalse (fun hc => Except.noConfusion hc)
  | .ok _, .error _ => .isFalse (fun hc => Except.noConfusion hc)
  | .ok x, .ok y =>
    if h : x = y then .isTrue (congrArg Except.ok h)
    else .isFalse (fun hc => h (Except.ok.inj hc))

/-- `chr as u8`: the character code truncated to a byte. -/
def charToByte (c : Char) : Nat := c.toNat % 256

/-- The `PrintString` loop: `while stack_pointer > 0 { pop; stop at 0; print }`.
Each iteration pops one byte, so a fuel of the initial `stack_pointer`
(the caller passes exactly that) makes the recursion total and faithful. -/
def VM.printStringLoop : Nat → VM → VM
  | 0, vm => vm
  | fuel + 1, vm =>
    if vm.stack_pointer = 0 then vm
    else
      let value := vm.stack.getD (vm.stack_pointer - 1) 0
      let vm' := { vm with stack_pointer := vm.stack_pointer - 1 }
      if value = 0 then vm'
      else VM.printStringLoop fuel
        { vm' with output := vm'.output ++ [.printChar value] }

/-- `VM::execute_one`: fetch the instruction at the program cursor, dispatch,
and (for non-returning branches) advance the cursor.  Returns `(continue?,
new state)` on success, an error on a fatal fault.  The `StdCall` dispatch
reproduces `transmute(id as u8)`: the id is truncated to a byte and a byte
outside the `StdFunc` discriminants `{0,1,2,3}` is undefined behavior. -/
def VM.execute_one (vm : VM) (program : Program) : Except VMError (Bool × VM) :=
  match program.get vm.program_pointer with
  | .Push value => do
    let vm ← vm.stack_push (wrap8 value)
    .ok (true, vm.advance)
  | .PushStr value => do
    let vm ← vm.stack_push 0
    let vm ← vm.pushList (value.data.reverse.map charToByte)
    .ok (true, vm.advance)
  | .Pop => do
    let (_, vm) ← vm.stack_pop
    .ok (true, vm.advance)
  | .Add => do
    let (lhs, vm) ← vm.stack_pop
    let (rhs, vm) ← vm.stack_pop
    let (value, overflow) := overflowing_add lhs rhs
    let vm ← vm.stack_push value
    .ok (true, ({ vm with overflow := overflow }).advance)
  | .Sub => do
    let (lhs, vm) ← vm.stack_pop
    let (rhs, vm) ← vm.stack_pop
    let (value, overflow) := overflowing_sub lhs rhs
    let vm ← vm.stack_push value
    .ok (true, ({ vm with overflow := overflow }).advance)
  | .Mul => do
    let (lhs, vm) ← vm.stack_pop
    let (rhs, vm) ← vm.stack_pop
    let vm ← vm.stack_push ((lhs * rhs) % 256)
    .ok (true, vm.advance)
  | .Div => do
    let (lhs, vm) ← vm.stack_pop
    let (rhs, vm) ← vm.stack_pop
    if rhs = 0 then .error .divisionByZero
    else do
      let vm ← vm.stack_push (lhs / rhs)
      .ok (true, vm.advance)
  | .JmpEq location => do
    let (lhs, vm) ← vm.stack_pop
    let (rhs, vm) ← vm.stack_pop
    if lhs = rhs then do
      let vm := { vm with program_pointer := location }
      let vm ← vm.stack_push rhs
      let vm ← vm.stack_push lhs
      .ok (true, vm)
    else do
      let vm ← vm.stack_push rhs
      let vm ← vm.stack_push lhs
      .ok (true, vm.advance)
  | .JmpNeq location => do
    let (lhs, vm) ← vm.stack_pop
    let (rhs, vm) ← vm.stack_pop
    if lhs ≠ rhs then do
      let vm := { vm with program_pointer := location }
      let vm ← vm.stack_push rhs
      let vm ← vm.stack_push lhs
      .ok (true, vm)
    else do
      let vm ← vm.stack_push rhs
      let vm ← vm.stack_push lhs
      .ok (true, vm.advance)
  | .Jmp location =>
    .ok (true, { vm with program_pointer := location })
  | .StdCall id =>
    if wrap8 id = 0 then do
      let (value, vm) ← vm.stack_pop
      .ok (true, ({ vm with output := vm.output ++ [OutEvent.printU8 value] }).advance)
    else if wrap8 id = 1 then do
      let (value, vm) ← vm.stack_pop
      .ok (true, ({ vm with output := vm.output ++ [OutEvent.printChar value] }).advance)
    else if wrap8 id = 2 then
      .ok (true, (VM.printStringLoop vm.stack_pointer vm).advance)
    else if wrap8 id = 3 then
      if vm.stack_pointer < vm.stack.length then do
        let vm ← vm.stack_push (vm.stack.getD vm.stack_pointer 0)
        .ok (true, vm.advance)
      else .error .indexOutOfBounds
    else .error .undefinedBehavior
  | .Interupt => .ok (false, vm)

/-- Result of driving the machine with bounded fuel: either the run reached a
terminating instruction, or the fuel ran out first. -/
inductive RunResult where
  | halted (vm : VM)
  | outOfFuel (vm : VM)
deriving DecidableEq

/-- `VM::execute`: repeatedly `execute_one` until it reports `false`
(fuel-bounded; the Rust loop has no bound, so termination shows up as
`halted` within some fuel). -/
def VM.execute (fuel : Nat) (vm : VM) (program : Program) : Except VMError RunResult :=
  match fuel with
  | 0 => .ok (.outOfFuel vm)
  | fuel + 1 => do
    let (c, vm') ← vm.execute_one program
    if c then vm'.execute fuel program else .ok (.halted vm')

/-- The logical stack contents, top first: the bytes below the stack cursor. -/
def VM.logicalStack (vm : VM) : List Nat :=
  (vm.stack.take vm.stack_pointer).reverse

/-! ### Concrete programs and machine states used as test vectors -/

/-- A one-instruction program holding only the terminating instruction. -/
def haltProg : Program := ⟨[Instruction.Interupt]⟩

/-- A one-instruction program pushing the byte 5. -/
def pushProgW : Program := ⟨[Instruction.Push 5]⟩

/-- The machine state after running `pushProgW` for one step from `VM.new`. -/
def vmPush5 : VM :=
  { stack := 5 :: List.replicate 127 0
    stack_pointer := 1
    program_pointer := 1
    overflow := false
    output := [] }

/-- A one-instruction program holding a conditional jump to 5. -/
def jeProg : Program := ⟨[Instruction.JmpEq 5]⟩

/-- A state with two equal bytes on the stack. -/
def vmTwo : VM :=
  { stack := 7 :: 7 :: List.replicate 126 0
    stack_pointer := 2
    program_pointer := 0
    overflow := false
    output := [] }

/-- A one-instruction program holding `Add`. -/
def addProg : Program := ⟨[Instruction.Add]⟩

/-- A state whose two top bytes (200 on top of 100) wrap when added. -/
def vmAddW : VM :=
  { stack := 100 :: 200 :: List.replicate 126 0
    stack_pointer := 2
    program_pointer := 0
    overflow := false
    output := [] }

/-- The string used in the spec's `PushString` test vector. -/
def sAbc : String := String.mk ['a', 'b', 'c']

/-- A one-instruction program holding `PushStr "abc"`. -/
def abcProg : Program := ⟨[Instruction.PushStr sAbc]⟩

/-- The machine state after executing `abcProg` for one step from `VM.new`:
the terminator 0 then the characters in reverse lie below the cursor. -/
def vmAbc : VM :=
  { stack := 0 :: 99 :: 98 :: 97 :: List.replicate 124 0
    stack_pointer := 4
    program_pointer := 1
    overflow := false
    output := [] }

/-- A state with a full stack (cursor at capacity). -/
def vmFull : VM :=
  { stack := List.replicate 128 0
    stack_pointer := 128
    program_pointer := 0
    overflow := false
    output := [] }

/-- A one-instruction program holding `Div`. -/
def divProg : Program := ⟨[Instruction.Div]⟩

/-- A state whose divisor operand (the second byte popped) is zero. -/
def vmDivZ : VM :=
  { stack := 0 :: 5 :: List.replicate 126 0
    stack_pointer := 2
    program_pointer := 0
    overflow := false
    output := [] }

/-- A one-instruction program holding `StdCall 256` (`256 as u8 == 0`). -/
def prog256 : Program := ⟨[Instruction.StdCall 256]⟩

/-- A state with the single byte 5 on the stack. -/
def vm256 : VM :=
  { stack := 5 :: List.replicate 127 0
    stack_pointer := 1
    program_pointer := 0
    overflow := false
    output := [] }

/-- A one-instruction program holding `StdCall 4` (no `StdFunc` discriminant). -/
def prog4 : Program := ⟨[Instruction.StdCall 4]⟩

/-- A one-instruction program holding `StdCall 3` (the `Clone` built-in). -/
def sc3Prog : Program := ⟨[Instruction.StdCall 3]⟩

/-- A state with logical top 1 at index 0 and the stale byte 2 just past the
logical top at index 1. -/
def vmClone : VM :=
  { stack := 1 :: 2 :: List.replicate 126 0
    stack_pointer := 1
    program_pointer := 0
    overflow := false
    output := [] }

/-- The loop program exactly as the claim lists it:
`[Push 10, Push 0, JmpEq 5, Push 1, Add, Jmp 1]`. -/
def claimLoopProg : Program :=
  ⟨[Instruction.Push 10, Instruction.Push 0, Instruction.JmpEq 5,
    Instruction.Push 1, Instruction.Add, Instruction.Jmp 1]⟩

/-- The loop program from the source's own comment (mod-counting loop):
`[Push 10, Push 0, JmpEq 6, Push 1, Add, Jmp 2]`; the comparison jumps past
the end, where the out-of-range policy yields the Halt instruction. -/
def amendLoopProg : Program :=
  ⟨[Instruction.Push 10, Instruction.Push 0, Instruction.JmpEq 6,
    Instruction.Push 1, Instruction.Add, Instruction.Jmp 2]⟩

/-- The terminal state of `amendLoopProg`: limit and counter both 10 on the
stack, cursor past the end, plus the stale loop byte at index 2. -/
def vmLoopFinal : VM :=
  { stack := 10 :: 10 :: 1 :: List.replicate 125 0
    stack_pointer := 2
    program_pointer := 6
    overflow := false
    output := [] }

/-! ### Basic lemmas about the monadic plumbing and list operations -/

theorem except_bind_ok {ε α β : Type} (a : α) (f : α → Except ε β) :
    (Except.ok a : Except ε α) >>= f = f a := rfl

theorem except_bind_error {ε α β : Type} (e : ε) (f : α → Except ε β) :
    (Except.error e : Except ε α) >>= f = Except.error e := rfl

theorem bind_ok_inv {α β : Type} {x : Except VMError α} {f : α → Except VMError β} {b : β}
    (h : x >>= f = .ok b) : ∃ a, x = .ok a ∧ f a = .ok b := by
  cases x with
  | error e => exact Except.noConfusion h
  | ok a => exact ⟨a, rfl, h⟩

theorem list_set_getD_self : ∀ (l : List Nat) (n : Nat), n < l.length →
    l.set n (l.getD n 0) = l := by
  intro l
  induction l with
  | nil => intro n h; simp at h
  | cons a l ih =>
    intro n h
    cases n with
    | zero => simp [List.getD]
    | succ n =>
      simp only [List.getD_cons_succ, List.set_cons_succ, List.cons.injEq, true_and]
      exact ih n (by simpa using h)

theorem list_take_set_succ {α : Type} : ∀ (l : List α) (n : Nat) (v : α), n < l.length →
    (l.set n v).take (n + 1) = l.take n ++ [v] := by
  intro l
  induction l with
  | nil => intro n v h; simp at h
  | cons a l ih =>
    intro n v h
    cases n with
    | zero => simp
    | succ n =>
      simp only [List.set_cons_succ, List.take_succ_cons, List.cons_append, List.cons.injEq,
        true_and]
      exact ih n v (by simpa using h)

/-! ### Inversion and forward lemmas for the stack primitives -/

theorem stack_push_inv {vm vm' : VM} {v : Nat} (h : vm.stack_push v = .ok vm') :
    vm.stack_pointer < STACK_SIZE ∧
    vm' = { vm with stack := vm.stack.set vm.stack_pointer v,
                    stack_pointer := vm.stack_pointer + 1 } := by
  unfold VM.stack_push at h
  split at h
  · exact Except.noConfusion h
  · exact ⟨by omega, (Except.ok.inj h).symm⟩

theorem stack_push_ok {vm : VM} {v : Nat} (h : vm.stack_pointer < STACK_SIZE) :
    vm.stack_push v = .ok { vm with stack := vm.stack.set vm.stack_pointer v,
                                    stack_pointer := vm.stack_pointer + 1 } := by
  unfold VM.stack_push
  rw [if_neg (by omega)]

theorem stack_pop_inv {vm vm' : VM} {v : Nat} (h : vm.stack_pop = .ok (v, vm')) :
    vm.stack_pointer ≠ 0 ∧ v = vm.stack.getD (vm.stack_pointer - 1) 0 ∧
    vm' = { vm with stack_pointer := vm.stack_pointer - 1 } := by
  unfold VM.stack_pop at h
  split at h
  · exact Except.noConfusion h
  · have h' := Except.ok.inj h
    exact ⟨by assumption, (congrArg Prod.fst h').symm, (congrArg Prod.snd h').symm⟩

theorem stack_pop_ok {vm : VM} (h : vm.stack_pointer ≠ 0) :
    vm.stack_pop = .ok (vm.stack.getD (vm.stack_pointer - 1) 0,
                        { vm with stack_pointer := vm.stack_pointer - 1 }) := by
  unfold VM.stack_pop
  rw [if_neg h]

theorem pushList_inv : ∀ {cs : List Nat} {vm vm' : VM}, vm.pushList cs = .ok vm' →
    vm'.program_pointer = vm.program_pointer ∧ vm'.overflow = vm.overflow ∧
    vm'.output = vm.output ∧ vm'.stack.length = vm.stack.length ∧
    vm'.stack_pointer = vm.stack_pointer + cs.length ∧
    (vm.stack_pointer ≤ STACK_SIZE → vm'.stack_pointer ≤ STACK_SIZE) := by
  intro cs
  induction cs with
  | nil =>
    intro vm vm' h
    have h' := Except.ok.inj h
    subst h'
    simp
  | cons c cs ih =>
    intro vm vm' h
    simp only [VM.pushList] at h
    obtain ⟨vm1, h1, h2⟩ := bind_ok_inv h
    obtain ⟨hlt, hvm1⟩ := stack_push_inv h1
    subst hvm1
    obtain ⟨ha, hb, hc, hd, he, hf⟩ := ih h2
    have hd' : vm'.stack.length = (vm.stack.set vm.stack_pointer c).length := hd
    have he' : vm'.stack_pointer = vm.stack_pointer + 1 + cs.length := he
    have hf' : vm.stack_pointer + 1 ≤ STACK_SIZE → vm'.stack_pointer ≤ STACK_SIZE := hf
    refine ⟨ha, hb, hc, ?_, ?_, ?_⟩
    · simpa using hd'
    · simp only [List.length_cons]
      omega
    · intro _
      exact hf' (by omega)

theorem logicalStack_push {vm : VM} {v : Nat} (hlt : vm.stack_pointer < vm.stack.length) :
    ({ vm with stack := vm.stack.set vm.stack_pointer v,
               stack_pointer := vm.stack_pointer + 1 } : VM).logicalStack =
      v :: vm.logicalStack := by
  simp only [VM.logicalStack]
  rw [list_take_set_succ _ _ _ hlt]
  simp

theorem pushList_ok : ∀ {cs : List Nat} {vm : VM}, vm.stack.length = STACK_SIZE →
    vm.stack_pointer + cs.length ≤ STACK_SIZE →
    ∃ vm', vm.pushList cs = .ok vm' ∧
      vm'.program_pointer = vm.program_pointer ∧ vm'.overflow = vm.overflow ∧
      vm'.output = vm.output ∧ vm'.stack.length = STACK_SIZE ∧
      vm'.stack_pointer = vm.stack_pointer + cs.length ∧
      vm'.logicalStack = cs.reverse ++ vm.logicalStack := by
  intro cs
  induction cs with
  | nil =>
    intro vm h1 _
    exact ⟨vm, rfl, rfl, rfl, rfl, h1, by simp, by simp⟩
  | cons c cs ih =>
    intro vm hlen hroom
    have hroom' : vm.stack_pointer + (cs.length + 1) ≤ STACK_SIZE := by
      simpa [Nat.add_comm] using hroom
    have hlt : vm.stack_pointer < STACK_SIZE := by omega
    have hpush : vm.stack_push c = .ok { vm with stack := vm.stack.set vm.stack_pointer c, stack_pointer := vm.stack_pointer + 1 } := stack_push_ok hlt
    have hlen1 : ({ vm with stack := vm.stack.set vm.stack_pointer c,
                            stack_pointer := vm.stack_pointer + 1 } : VM).stack.length =
        STACK_SIZE := by simpa using hlen
    have hroom1 : ({ vm with stack := vm.stack.set vm.stack_pointer c,
                             stack_pointer := vm.stack_pointer + 1 } : VM).stack_pointer +
        cs.length ≤ STACK_SIZE := by
      show vm.stack_pointer + 1 + cs.length ≤ STACK_SIZE
      omega
    obtain ⟨vm', hrec, ha, hb, hc, hd, he, hls⟩ := ih hlen1 hroom1
    have he' : vm'.stack_pointer = vm.stack_pointer + 1 + cs.length := he
    have hls' : vm'.logicalStack = cs.reverse ++ (c :: vm.logicalStack) := by
      rw [hls, logicalStack_push (by omega)]
    refine ⟨vm', ?_, ha, hb, hc, hd, ?_, ?_⟩
    · simp only [VM.pushList, hpush, except_bind_ok]
      exact hrec
    · simp only [List.length_cons]
      omega
    · rw [hls']
      simp

theorem printStringLoop_inv : ∀ (fuel : Nat) (vm : VM),
    (VM.printStringLoop fuel vm).stack = vm.stack ∧
    (VM.printStringLoop fuel vm).stack_pointer ≤ vm.stack_pointer ∧
    (VM.printStringLoop fuel vm).program_pointer = vm.program_pointer ∧
    (VM.printStringLoop fuel vm).overflow = vm.overflow := by
  intro fuel
  induction fuel with
  | zero =>
    intro vm
    simp [VM.printStringLoop]
  | succ n ih =>
    intro vm
    by_cases h0 : vm.stack_pointer = 0
    · simp [VM.printStringLoop, h0]
    · by_cases hv : vm.stack.getD (vm.stack_pointer - 1) 0 = 0
      · refine ⟨?_, ?_, ?_, ?_⟩
        · simp only [VM.printStringLoop, if_neg h0, if_pos hv]
        · simp only [VM.printStringLoop, if_neg h0, if_pos hv]
          omega
        · simp only [VM.printStringLoop, if_neg h0, if_pos hv]
        · simp only [VM.printStringLoop, if_neg h0, if_pos hv]
      · have step : VM.printStringLoop (n + 1) vm = VM.printStringLoop n { vm with stack_pointer := vm.stack_pointer - 1, output := vm.output ++ [OutEvent.printChar (vm.stack.getD (vm.stack_pointer - 1) 0)] } := by
          simp only [VM.printStringLoop, if_neg h0, if_neg hv]
        obtain ⟨ia, ib, ic, id⟩ := ih { vm with stack_pointer := vm.stack_pointer - 1, output := vm.output ++ [OutEvent.printChar (vm.stack.getD (vm.stack_pointer - 1) 0)] }
        rw [step]
        have ib' : (VM.printStringLoop n { vm with stack_pointer := vm.stack_pointer - 1, output := vm.output ++ [OutEvent.printChar (vm.stack.getD (vm.stack_pointer - 1) 0)] }).stack_pointer ≤ vm.stack_pointer - 1 := ib
        exact ⟨ia, by omega, ic, id⟩

/-- Master inversion lemma for a successful `execute_one` step: the stack
array keeps its length, the stack cursor stays within capacity, the overflow
flag is only touched by `Add`/`Sub`, and the program cursor behaves as the
dispatch prescribes (taken jumps set it, `Interupt` leaves it, everything
else advances it by one). -/
theorem execute_one_inv {prog : Program} {vm : VM} {c : Bool} {vm' : VM}
    (hstep : vm.execute_one prog = .ok (c, vm')) :
    vm'.stack.length = vm.stack.length ∧
    (vm.stack_pointer ≤ STACK_SIZE → vm'.stack_pointer ≤ STACK_SIZE) ∧
    (prog.get vm.program_pointer ≠ .Add → prog.get vm.program_pointer ≠ .Sub →
      vm'.overflow = vm.overflow) ∧
    (∀ t, prog.get vm.program_pointer = .Jmp t → vm'.program_pointer = t) ∧
    (∀ t, prog.get vm.program_pointer = .JmpEq t →
      (vm.stack.getD (vm.stack_pointer - 1) 0 = vm.stack.getD (vm.stack_pointer - 2) 0 →
        vm'.program_pointer = t) ∧
      (vm.stack.getD (vm.stack_pointer - 1) 0 ≠ vm.stack.getD (vm.stack_pointer - 2) 0 →
        vm'.program_pointer = vm.program_pointer + 1)) ∧
    (∀ t, prog.get vm.program_pointer = .JmpNeq t →
      (vm.stack.getD (vm.stack_pointer - 1) 0 ≠ vm.stack.getD (vm.stack_pointer - 2) 0 →
        vm'.program_pointer = t) ∧
      (vm.stack.getD (vm.stack_pointer - 1) 0 = vm.stack.getD (vm.stack_pointer - 2) 0 →
        vm'.program_pointer = vm.program_pointer + 1)) ∧
    (prog.get vm.program_pointer = .Interupt →
      vm'.program_pointer = vm.program_pointer ∧ c = false) ∧
    ((∀ t, prog.get vm.program_pointer ≠ .Jmp t) →
      (∀ t, prog.get vm.program_pointer ≠ .JmpEq t) →
      (∀ t, prog.get vm.program_pointer ≠ .JmpNeq t) →
      prog.get vm.program_pointer ≠ .Interupt →
      vm'.program_pointer = vm.program_pointer + 1) := by
  unfold VM.execute_one at hstep
  split at hstep
  next v heq =>
    -- Push
    obtain ⟨vm1, h1, hstep⟩ := bind_ok_inv hstep
    obtain ⟨hlt, hvm1⟩ := stack_push_inv h1
    subst hvm1
    obtain ⟨hc, hvm'⟩ := Prod.mk.inj (Except.ok.inj hstep)
    subst hvm'
    exact ⟨by simp [VM.advance], fun _ => by simp [VM.advance]; omega,
      fun _ _ => by simp [VM.advance],
      fun t ht => Instruction.noConfusion (heq.symm.trans ht),
      fun t ht => Instruction.noConfusion (heq.symm.trans ht),
      fun t ht => Instruction.noConfusion (heq.symm.trans ht),
      fun ht => Instruction.noConfusion (heq.symm.trans ht),
      fun _ _ _ _ => by simp [VM.advance]⟩
  next s heq =>
    -- PushStr
    obtain ⟨vm1, h1, hstep⟩ := bind_ok_inv hstep
    obtain ⟨hlt, hvm1⟩ := stack_push_inv h1
    subst hvm1
    obtain ⟨vm2, h2, hstep⟩ := bind_ok_inv hstep
    obtain ⟨pa, pb, pc, pd, pe, pf⟩ := pushList_inv h2
    obtain ⟨hc, hvm'⟩ := Prod.mk.inj (Except.ok.inj hstep)
    subst hvm'
    have pa' : vm2.program_pointer = vm.program_pointer := pa
    have pb' : vm2.overflow = vm.overflow := pb
    have pd' : vm2.stack.length = (vm.stack.set vm.stack_pointer 0).length := pd
    have pf' : vm.stack_pointer + 1 ≤ STACK_SIZE → vm2.stack_pointer ≤ STACK_SIZE := pf
    refine ⟨?_, ?_, ?_,
      fun t ht => Instruction.noConfusion (heq.symm.trans ht),
      fun t ht => Instruction.noConfusion (heq.symm.trans ht),
      fun t ht => Instruction.noConfusion (heq.symm.trans ht),
      fun ht => Instruction.noConfusion (heq.symm.trans ht),
      fun _ _ _ _ => ?_⟩
    · simp only [VM.advance]
      simpa using pd'
    · intro _
      simp only [VM.advance]
      exact pf' (by omega)
    · intro _ _
      simp only [VM.advance]
      exact pb'
    · simp only [VM.advance]
      omega
  next heq =>
    -- Pop
    obtain ⟨⟨x, vm1⟩, h1, hstep⟩ := bind_ok_inv hstep
    obtain ⟨hne1, hx, hvm1⟩ := stack_pop_inv h1
    subst hvm1
    obtain ⟨hc, hvm'⟩ := Prod.mk.inj (Except.ok.inj hstep)
    subst hvm'
    exact ⟨by simp [VM.advance], fun _ => by simp [VM.advance]; omega,
      fun _ _ => by simp [VM.advance],
      fun t ht => Instruction.noConfusion (heq.symm.trans ht),
      fun t ht => Instruction.noConfusion (heq.symm.trans ht),
      fun t ht => Instruction.noConfusion (heq.symm.trans ht),
      fun ht => Instruction.noConfusion (heq.symm.trans ht),
      fun _ _ _ _ => by simp [VM.advance]⟩
  next heq =>
    -- Add
    obtain ⟨⟨lhs, vm1⟩, h1, hstep⟩ := bind_ok_inv hstep
    obtain ⟨hne1, hlhs, hvm1⟩ := stack_pop_inv h1
    subst hvm1
    obtain ⟨⟨rhs, vm2⟩, h2, hstep⟩ := bind_ok_inv hstep
    obtain ⟨hne2, hrhs, hvm2⟩ := stack_pop_inv h2
    subst hvm2
    simp only [overflowing_add] at hstep
    obtain ⟨vm3, h3, hstep⟩ := bind_ok_inv hstep
    obtain ⟨hlt3, hvm3⟩ := stack_push_inv h3
    subst hvm3
    obtain ⟨hc, hvm'⟩ := Prod.mk.inj (Except.ok.inj hstep)
    subst hvm'
    exact ⟨by simp [VM.advance], fun _ => by simp [VM.advance]; omega,
      fun hA _ => absurd heq hA,
      fun t ht => Instruction.noConfusion (heq.symm.trans ht),
      fun t ht => Instruction.noConfusion (heq.symm.trans ht),
      fun t ht => Instruction.noConfusion (heq.symm.trans ht),
      fun ht => Instruction.noConfusion (heq.symm.trans ht),
      fun _ _ _ _ => by simp [VM.advance]⟩
  next heq =>
    -- Sub
    obtain ⟨⟨lhs, vm1⟩, h1, hstep⟩ := bind_ok_inv hstep
    obtain ⟨hne1, hlhs, hvm1⟩ := stack_pop_inv h1
    subst hvm1
    obtain ⟨⟨rhs, vm2⟩, h2, hstep⟩ := bind_ok_inv hstep
    obtain ⟨hne2, hrhs, hvm2⟩ := stack_pop_inv h2
    subst hvm2
    simp only [overflowing_sub] at hstep
    obtain ⟨vm3, h3, hstep⟩ := bind_ok_inv hstep
    obtain ⟨hlt3, hvm3⟩ := stack_push_inv h3
    subst hvm3
    obtain ⟨hc, hvm'⟩ := Prod.mk.inj (Except.ok.inj hstep)
    subst hvm'
    exact ⟨by simp [VM.advance], fun _ => by simp [VM.advance]; omega,
      fun _ hS => absurd heq hS,
      fun t ht => Instruction.noConfusion (heq.symm.trans ht),
      fun t ht => Instruction.noConfusion (heq.symm.trans ht),
      fun t ht => Instruction.noConfusion (heq.symm.trans ht),
      fun ht => Instruction.noConfusion (heq.symm.trans ht),
      fun _ _ _ _ => by simp [VM.advance]⟩
  next heq =>
    -- Mul
    obtain ⟨⟨lhs, vm1⟩, h1, hstep⟩ := bind_ok_inv hstep
    obtain ⟨hne1, hlhs, hvm1⟩ := stack_pop_inv h1
    subst hvm1
    obtain ⟨⟨rhs, vm2⟩, h2, hstep⟩ := bind_ok_inv hstep
    obtain ⟨hne2, hrhs, hvm2⟩ := stack_pop_inv h2
    subst hvm2
    obtain ⟨vm3, h3, hstep⟩ := bind_ok_inv hstep
    obtain ⟨hlt3, hvm3⟩ := stack_push_inv h3
    subst hvm3
    obtain ⟨hc, hvm'⟩ := Prod.mk.inj (Except.ok.inj hstep)
    subst hvm'
    exact ⟨by simp [VM.advance], fun _ => by simp [VM.advance]; omega,
      fun _ _ => by simp [VM.advance],
      fun t ht => Instruction.noConfusion (heq.symm.trans ht),
      fun t ht => Instruction.noConfusion (heq.symm.trans ht),
      fun t ht => Instruction.noConfusion (heq.symm.trans ht),
      fun ht => Instruction.noConfusion (heq.symm.trans ht),
      fun _ _ _ _ => by simp [VM.advance]⟩
  next heq =>
    -- Div
    obtain ⟨⟨lhs, vm1⟩, h1, hstep⟩ := bind_ok_inv hstep
    obtain ⟨hne1, hlhs, hvm1⟩ := stack_pop_inv h1
    subst hvm1
    obtain ⟨⟨rhs, vm2⟩, h2, hstep⟩ := bind_ok_inv hstep
    obtain ⟨hne2, hrhs, hvm2⟩ := stack_pop_inv h2
    subst hvm2
    simp only [] at hstep
    by_cases hz : rhs = 0
    · rw [if_pos hz] at hstep
      exact Except.noConfusion hstep
    · rw [if_neg hz] at hstep
      obtain ⟨vm3, h3, hstep⟩ := bind_ok_inv hstep
      obtain ⟨hlt3, hvm3⟩ := stack_push_inv h3
      subst hvm3
      obtain ⟨hc, hvm'⟩ := Prod.mk.inj (Except.ok.inj hstep)
      subst hvm'
      exact ⟨by simp [VM.advance], fun _ => by simp [VM.advance]; omega,
        fun _ _ => by simp [VM.advance],
        fun t ht => Instruction.noConfusion (heq.symm.trans ht),
        fun t ht => Instruction.noConfusion (heq.symm.trans ht),
        fun t ht => Instruction.noConfusion (heq.symm.trans ht),
        fun ht => Instruction.noConfusion (heq.symm.trans ht),
        fun _ _ _ _ => by simp [VM.advance]⟩
  next t heq =>
    -- JmpEq
    obtain ⟨⟨lhs, vm1⟩, h1, hstep⟩ := bind_ok_inv hstep
    obtain ⟨hne1, hlhs, hvm1⟩ := stack_pop_inv h1
    subst hvm1
    obtain ⟨⟨rhs, vm2⟩, h2, hstep⟩ := bind_ok_inv hstep
    obtain ⟨hne2, hrhs, hvm2⟩ := stack_pop_inv h2
    subst hvm2
    simp only [] at hstep
    have hlhs' : lhs = vm.stack.getD (vm.stack_pointer - 1) 0 := hlhs
    have hrhs' : rhs = vm.stack.getD (vm.stack_pointer - 1 - 1) 0 := hrhs
    have hidx : vm.stack_pointer - 1 - 1 = vm.stack_pointer - 2 := by omega
    rw [hidx] at hrhs'
    by_cases hbr : lhs = rhs
    · rw [if_pos hbr] at hstep
      obtain ⟨vm3, h3, hstep⟩ := bind_ok_inv hstep
      obtain ⟨hlt3, hvm3⟩ := stack_push_inv h3
      subst hvm3
      obtain ⟨vm4, h4, hstep⟩ := bind_ok_inv hstep
      obtain ⟨hlt4, hvm4⟩ := stack_push_inv h4
      subst hvm4
      obtain ⟨hc, hvm'⟩ := Prod.mk.inj (Except.ok.inj hstep)
      subst hvm'
      refine ⟨by simp, fun _ => by
        have hlt4' : vm.stack_pointer - 1 - 1 + 1 < STACK_SIZE := hlt4
        show vm.stack_pointer - 1 - 1 + 1 + 1 ≤ STACK_SIZE
        omega, fun _ _ => by simp,
        fun t' ht => Instruction.noConfusion (heq.symm.trans ht),
        fun t' ht => ?_,
        fun t' ht => Instruction.noConfusion (heq.symm.trans ht),
        fun ht => Instruction.noConfusion (heq.symm.trans ht),
        fun _ h2' _ _ => absurd heq (h2' t)⟩
      have htt : t = t' := Instruction.JmpEq.inj (heq.symm.trans ht)
      subst htt
      constructor
      · intro _
        simp
      · intro hne
        exact absurd (hlhs'.symm ▸ hrhs'.symm ▸ hbr) hne
    · rw [if_neg hbr] at hstep
      obtain ⟨vm3, h3, hstep⟩ := bind_ok_inv hstep
      obtain ⟨hlt3, hvm3⟩ := stack_push_inv h3
      subst hvm3
      obtain ⟨vm4, h4, hstep⟩ := bind_ok_inv hstep
      obtain ⟨hlt4, hvm4⟩ := stack_push_inv h4
      subst hvm4
      obtain ⟨hc, hvm'⟩ := Prod.mk.inj (Except.ok.inj hstep)
      subst hvm'
      refine ⟨by simp [VM.advance], fun _ => by
        have hlt4' : vm.stack_pointer - 1 - 1 + 1 < STACK_SIZE := hlt4
        show vm.stack_pointer - 1 - 1 + 1 + 1 ≤ STACK_SIZE
        omega,
        fun _ _ => by simp [VM.advance],
        fun t' ht => Instruction.noConfusion (heq.symm.trans ht),
        fun t' ht => ?_,
        fun t' ht => Instruction.noConfusion (heq.symm.trans ht),
        fun ht => Instruction.noConfusion (heq.symm.trans ht),
        fun _ h2' _ _ => absurd heq (h2' t)⟩
      constructor
      · intro heqv
        exact absurd (hlhs' ▸ hrhs' ▸ heqv) hbr
      · intro _
        simp [VM.advance]
  next t heq =>
    -- JmpNeq
    obtain ⟨⟨lhs, vm1⟩, h1, hstep⟩ := bind_ok_inv hstep
    obtain ⟨hne1, hlhs, hvm1⟩ := stack_pop_inv h1
    subst hvm1
    obtain ⟨⟨rhs, vm2⟩, h2, hstep⟩ := bind_ok_inv hstep
    obtain ⟨hne2, hrhs, hvm2⟩ := stack_pop_inv h2
    subst hvm2
    simp only [] at hstep
    have hlhs' : lhs = vm.stack.getD (vm.stack_pointer - 1) 0 := hlhs
    have hrhs' : rhs = vm.stack.getD (vm.stack_pointer - 1 - 1) 0 := hrhs
    have hidx : vm.stack_pointer - 1 - 1 = vm.stack_pointer - 2 := by omega
    rw [hidx] at hrhs'
    by_cases hbr : lhs = rhs
    · rw [if_neg (fun h => h hbr)] at hstep
      obtain ⟨vm3, h3, hstep⟩ := bind_ok_inv hstep
      obtain ⟨hlt3, hvm3⟩ := stack_push_inv h3
      subst hvm3
      obtain ⟨vm4, h4, hstep⟩ := bind_ok_inv hstep
      obtain ⟨hlt4, hvm4⟩ := stack_push_inv h4
      subst hvm4
      obtain ⟨hc, hvm'⟩ := Prod.mk.inj (Except.ok.inj hstep)
      subst hvm'
      refine ⟨by simp [VM.advance], fun _ => by
        have hlt4' : vm.stack_pointer - 1 - 1 + 1 < STACK_SIZE := hlt4
        show vm.stack_pointer - 1 - 1 + 1 + 1 ≤ STACK_SIZE
        omega,
        fun _ _ => by simp [VM.advance],
        fun t' ht => Instruction.noConfusion (heq.symm.trans ht),
        fun t' ht => Instruction.noConfusion (heq.symm.trans ht),
        fun t' ht => ?_,
        fun ht => Instruction.noConfusion (heq.symm.trans ht),
        fun _ _ h3' _ => absurd heq (h3' t)⟩
      constructor
      · intro hnev
        exact absurd (hlhs'.symm ▸ hrhs'.symm ▸ hbr) hnev
      · intro _
        simp [VM.advance]
    · rw [if_pos hbr] at hstep
      obtain ⟨vm3, h3, hstep⟩ := bind_ok_inv hstep
      obtain ⟨hlt3, hvm3⟩ := stack_push_inv h3
      subst hvm3
      obtain ⟨vm4, h4, hstep⟩ := bind_ok_inv hstep
      obtain ⟨hlt4, hvm4⟩ := stack_push_inv h4
      subst hvm4
      obtain ⟨hc, hvm'⟩ := Prod.mk.inj (Except.ok.inj hstep)
      subst hvm'
      refine ⟨by simp, fun _ => by
        have hlt4' : vm.stack_pointer - 1 - 1 + 1 < STACK_SIZE := hlt4
        show vm.stack_pointer - 1 - 1 + 1 + 1 ≤ STACK_SIZE
        omega, fun _ _ => by simp,
        fun t' ht => Instruction.noConfusion (heq.symm.trans ht),
        fun t' ht => Instruction.noConfusion (heq.symm.trans ht),
        fun t' ht => ?_,
        fun ht => Instruction.noConfusion (heq.symm.trans ht),
        fun _ _ h3' _ => absurd heq (h3' t)⟩
      have htt : t = t' := Instruction.JmpNeq.inj (heq.symm.trans ht)
      subst htt
      constructor
      · intro _
        simp
      · intro heqv
        exact absurd (hlhs' ▸ hrhs' ▸ heqv) hbr
  next t heq =>
    -- Jmp
    obtain ⟨hc, hvm'⟩ := Prod.mk.inj (Except.ok.inj hstep)
    subst hvm'
    refine ⟨by simp, fun h => by simpa using h, fun _ _ => by simp,
      fun t' ht => ?_,
      fun t' ht => Instruction.noConfusion (heq.symm.trans ht),
      fun t' ht => Instruction.noConfusion (heq.symm.trans ht),
      fun ht => Instruction.noConfusion (heq.symm.trans ht),
      fun h1' _ _ _ => absurd heq (h1' t)⟩
    have htt : t = t' := Instruction.Jmp.inj (heq.symm.trans ht)
    subst htt
    simp
  next id heq =>
    -- StdCall
    by_cases h0 : wrap8 id = 0
    · rw [if_pos h0] at hstep
      obtain ⟨⟨x, vm1⟩, h1, hstep⟩ := bind_ok_inv hstep
      obtain ⟨hne1, hx, hvm1⟩ := stack_pop_inv h1
      subst hvm1
      obtain ⟨hc, hvm'⟩ := Prod.mk.inj (Except.ok.inj hstep)
      subst hvm'
      exact ⟨by simp [VM.advance], fun _ => by simp [VM.advance]; omega,
        fun _ _ => by simp [VM.advance],
        fun t ht => Instruction.noConfusion (heq.symm.trans ht),
        fun t ht => Instruction.noConfusion (heq.symm.trans ht),
        fun t ht => Instruction.noConfusion (heq.symm.trans ht),
        fun ht => Instruction.noConfusion (heq.symm.trans ht),
        fun _ _ _ _ => by simp [VM.advance]⟩
    · rw [if_neg h0] at hstep
      by_cases h1c : wrap8 id = 1
      · rw [if_pos h1c] at hstep
        obtain ⟨⟨x, vm1⟩, h1, hstep⟩ := bind_ok_inv hstep
        obtain ⟨hne1, hx, hvm1⟩ := stack_pop_inv h1
        subst hvm1
        obtain ⟨hc, hvm'⟩ := Prod.mk.inj (Except.ok.inj hstep)
        subst hvm'
        exact ⟨by simp [VM.advance], fun _ => by simp [VM.advance]; omega,
          fun _ _ => by simp [VM.advance],
          fun t ht => Instruction.noConfusion (heq.symm.trans ht),
          fun t ht => Instruction.noConfusion (heq.symm.trans ht),
          fun t ht => Instruction.noConfusion (heq.symm.trans ht),
          fun ht => Instruction.noConfusion (heq.symm.trans ht),
          fun _ _ _ _ => by simp [VM.advance]⟩
      · rw [if_neg h1c] at hstep
        by_cases h2c : wrap8 id = 2
        · rw [if_pos h2c] at hstep
          obtain ⟨hc, hvm'⟩ := Prod.mk.inj (Except.ok.inj hstep)
          subst hvm'
          obtain ⟨pa, pb, pc, pd⟩ := printStringLoop_inv vm.stack_pointer vm
          refine ⟨?_, ?_, ?_,
            fun t ht => Instruction.noConfusion (heq.symm.trans ht),
            fun t ht => Instruction.noConfusion (heq.symm.trans ht),
            fun t ht => Instruction.noConfusion (heq.symm.trans ht),
            fun ht => Instruction.noConfusion (heq.symm.trans ht),
            fun _ _ _ _ => ?_⟩
          · simp only [VM.advance]
            simp [pa]
          · intro h
            have pb2 : (VM.printStringLoop vm.stack_pointer vm).stack_pointer ≤
                vm.stack_pointer := pb
            show (VM.printStringLoop vm.stack_pointer vm).stack_pointer ≤ STACK_SIZE
            omega
          · intro _ _
            simp only [VM.advance]
            simpa using pd
          · simp only [VM.advance]
            simp [pc]
        · rw [if_neg h2c] at hstep
          by_cases h3c : wrap8 id = 3
          · rw [if_pos h3c] at hstep
            by_cases hib : vm.stack_pointer < vm.stack.length
            · rw [if_pos hib] at hstep
              obtain ⟨vm1, h1, hstep⟩ := bind_ok_inv hstep
              obtain ⟨hlt, hvm1⟩ := stack_push_inv h1
              subst hvm1
              obtain ⟨hc, hvm'⟩ := Prod.mk.inj (Except.ok.inj hstep)
              subst hvm'
              exact ⟨by simp [VM.advance], fun _ => by simp [VM.advance]; omega,
                fun _ _ => by simp [VM.advance],
                fun t ht => Instruction.noConfusion (heq.symm.trans ht),
                fun t ht => Instruction.noConfusion (heq.symm.trans ht),
                fun t ht => Instruction.noConfusion (heq.symm.trans ht),
                fun ht => Instruction.noConfusion (heq.symm.trans ht),
                fun _ _ _ _ => by simp [VM.advance]⟩
            · rw [if_neg hib] at hstep
              exact Except.noConfusion hstep
          · rw [if_neg h3c] at hstep
            exact Except.noConfusion hstep
  next heq =>
    -- Interupt
    obtain ⟨hc, hvm'⟩ := Prod.mk.inj (Except.ok.inj hstep)
    subst hvm'
    subst hc
    exact ⟨rfl, fun h => h, fun _ _ => rfl,
      fun t ht => Instruction.noConfusion (heq.symm.trans ht),
      fun t ht => Instruction.noConfusion (heq.symm.trans ht),
      fun t ht => Instruction.noConfusion (heq.symm.trans ht),
      fun _ => ⟨rfl, rfl⟩,
      fun _ _ _ h4' => absurd heq h4'⟩
theorem exec_jmpeq {prog : Program} {vm : VM} {t : Nat}
    (hi : prog.get vm.program_pointer = .JmpEq t)
    (h2 : 2 ≤ vm.stack_pointer) (h128 : vm.stack_pointer ≤ STACK_SIZE)
    (hlen : vm.stack.length = STACK_SIZE) :
    ∃ vm', vm.execute_one prog = .ok (true, vm') ∧ vm'.stack = vm.stack ∧
      vm'.stack_pointer = vm.stack_pointer ∧ vm'.overflow = vm.overflow ∧
      vm'.output = vm.output ∧
      (vm.stack.getD (vm.stack_pointer - 1) 0 = vm.stack.getD (vm.stack_pointer - 2) 0 →
        vm'.program_pointer = t) ∧
      (vm.stack.getD (vm.stack_pointer - 1) 0 ≠ vm.stack.getD (vm.stack_pointer - 2) 0 →
        vm'.program_pointer = vm.program_pointer + 1) := by
  have e1 : vm.stack_pop = .ok (vm.stack.getD (vm.stack_pointer - 1) 0, { vm with stack_pointer := vm.stack_pointer - 1 }) := stack_pop_ok (by omega)
  have e2 : ({ vm with stack_pointer := vm.stack_pointer - 1 } : VM).stack_pop = .ok (vm.stack.getD (vm.stack_pointer - 1 - 1) 0, { vm with stack_pointer := vm.stack_pointer - 1 - 1 }) := stack_pop_ok (show vm.stack_pointer - 1 ≠ 0 by omega)
  have hidx : vm.stack_pointer - 1 - 1 = vm.stack_pointer - 2 := by omega
  have hset1 : vm.stack.set (vm.stack_pointer - 2) (vm.stack.getD (vm.stack_pointer - 2) 0) = vm.stack := list_set_getD_self _ _ (by omega)
  have hset2 : vm.stack.set (vm.stack_pointer - 1) (vm.stack.getD (vm.stack_pointer - 1) 0) = vm.stack := list_set_getD_self _ _ (by omega)
  by_cases hbr : vm.stack.getD (vm.stack_pointer - 1) 0 = vm.stack.getD (vm.stack_pointer - 1 - 1) 0
  · have e3 : ({ vm with stack_pointer := vm.stack_pointer - 1 - 1, program_pointer := t } : VM).stack_push (vm.stack.getD (vm.stack_pointer - 1 - 1) 0) = .ok { vm with stack := vm.stack.set (vm.stack_pointer - 1 - 1) (vm.stack.getD (vm.stack_pointer - 1 - 1) 0), stack_pointer := vm.stack_pointer - 1 - 1 + 1, program_pointer := t } := stack_push_ok (show vm.stack_pointer - 1 - 1 < STACK_SIZE by omega)
    have hset1' : vm.stack.set (vm.stack_pointer - 1 - 1) (vm.stack.getD (vm.stack_pointer - 1 - 1) 0) = vm.stack := by rw [hidx]; exact hset1
    have e4 : ({ vm with stack := vm.stack.set (vm.stack_pointer - 1 - 1) (vm.stack.getD (vm.stack_pointer - 1 - 1) 0), stack_pointer := vm.stack_pointer - 1 - 1 + 1, program_pointer := t } : VM).stack_push (vm.stack.getD (vm.stack_pointer - 1) 0) = .ok { vm with stack := (vm.stack.set (vm.stack_pointer - 1 - 1) (vm.stack.getD (vm.stack_pointer - 1 - 1) 0)).set (vm.stack_pointer - 1 - 1 + 1) (vm.stack.getD (vm.stack_pointer - 1) 0), stack_pointer := vm.stack_pointer - 1 - 1 + 1 + 1, program_pointer := t } := stack_push_ok (show vm.stack_pointer - 1 - 1 + 1 < STACK_SIZE by omega)
    unfold VM.execute_one
    rw [hi]
    simp only [e1, except_bind_ok, e2]
    rw [if_pos hbr]
    simp only [e3, except_bind_ok, e4]
    refine ⟨_, rfl, ?_, ?_, ?_, ?_, ?_, ?_⟩
    · show (vm.stack.set (vm.stack_pointer - 1 - 1) (vm.stack.getD (vm.stack_pointer - 1 - 1) 0)).set (vm.stack_pointer - 1 - 1 + 1) (vm.stack.getD (vm.stack_pointer - 1) 0) = vm.stack
      rw [hset1']
      have h11 : vm.stack_pointer - 1 - 1 + 1 = vm.stack_pointer - 1 := by omega
      rw [h11]
      exact hset2
    · show vm.stack_pointer - 1 - 1 + 1 + 1 = vm.stack_pointer
      omega
    · rfl
    · rfl
    · intro _
      rfl
    · intro hne
      rw [← hidx] at hne
      exact absurd hbr hne
  · have e3 : ({ vm with stack_pointer := vm.stack_pointer - 1 - 1 } : VM).stack_push (vm.stack.getD (vm.stack_pointer - 1 - 1) 0) = .ok { vm with stack := vm.stack.set (vm.stack_pointer - 1 - 1) (vm.stack.getD (vm.stack_pointer - 1 - 1) 0), stack_pointer := vm.stack_pointer - 1 - 1 + 1 } := stack_push_ok (show vm.stack_pointer - 1 - 1 < STACK_SIZE by omega)
    have hset1' : vm.stack.set (vm.stack_pointer - 1 - 1) (vm.stack.getD (vm.stack_pointer - 1 - 1) 0) = vm.stack := by rw [hidx]; exact hset1
    have e4 : ({ vm with stack := vm.stack.set (vm.stack_pointer - 1 - 1) (vm.stack.getD (vm.stack_pointer - 1 - 1) 0), stack_pointer := vm.stack_pointer - 1 - 1 + 1 } : VM).stack_push (vm.stack.getD (vm.stack_pointer - 1) 0) = .ok { vm with stack := (vm.stack.set (vm.stack_pointer - 1 - 1) (vm.stack.getD (vm.stack_pointer - 1 - 1) 0)).set (vm.stack_pointer - 1 - 1 + 1) (vm.stack.getD (vm.stack_pointer - 1) 0), stack_pointer := vm.stack_pointer - 1 - 1 + 1 + 1 } := stack_push_ok (show vm.stack_pointer - 1 - 1 + 1 < STACK_SIZE by omega)
    unfold VM.execute_one
    rw [hi]
    simp only [e1, except_bind_ok, e2]
    rw [if_neg hbr]
    simp only [e3, except_bind_ok, e4]
    refine ⟨_, rfl, ?_, ?_, ?_, ?_, ?_, ?_⟩
    · show (vm.stack.set (vm.stack_pointer - 1 - 1) (vm.stack.getD (vm.stack_pointer - 1 - 1) 0)).set (vm.stack_pointer - 1 - 1 + 1) (vm.stack.getD (vm.stack_pointer - 1) 0) = vm.stack
      rw [hset1']
      have h11 : vm.stack_pointer - 1 - 1 + 1 = vm.stack_pointer - 1 := by omega
      rw [h11]
      exact hset2
    · show vm.stack_pointer - 1 - 1 + 1 + 1 = vm.stack_pointer
      omega
    · rfl
    · rfl
    · intro heqv
      rw [← hidx] at heqv
      exact absurd heqv hbr
    · intro _
      show vm.program_pointer + 1 = vm.program_pointer + 1
      rfl

theorem exec_jmpneq {prog : Program} {vm : VM} {t : Nat}
    (hi : prog.get vm.program_pointer = .JmpNeq t)
    (h2 : 2 ≤ vm.stack_pointer) (h128 : vm.stack_pointer ≤ STACK_SIZE)
    (hlen : vm.stack.length = STACK_SIZE) :
    ∃ vm', vm.execute_one prog = .ok (true, vm') ∧ vm'.stack = vm.stack ∧
      vm'.stack_pointer = vm.stack_pointer ∧ vm'.overflow = vm.overflow ∧
      vm'.output = vm.output ∧
      (vm.stack.getD (vm.stack_pointer - 1) 0 ≠ vm.stack.getD (vm.stack_pointer - 2) 0 →
        vm'.program_pointer = t) ∧
      (vm.stack.getD (vm.stack_pointer - 1) 0 = vm.stack.getD (vm.stack_pointer - 2) 0 →
        vm'.program_pointer = vm.program_pointer + 1) := by
  have e1 : vm.stack_pop = .ok (vm.stack.getD (vm.stack_pointer - 1) 0, { vm with stack_pointer := vm.stack_pointer - 1 }) := stack_pop_ok (by omega)
  have e2 : ({ vm with stack_pointer := vm.stack_pointer - 1 } : VM).stack_pop = .ok (vm.stack.getD (vm.stack_pointer - 1 - 1) 0, { vm with stack_pointer := vm.stack_pointer - 1 - 1 }) := stack_pop_ok (show vm.stack_pointer - 1 ≠ 0 by omega)
  have hidx : vm.stack_pointer - 1 - 1 = vm.stack_pointer - 2 := by omega
  have hset1 : vm.stack.set (vm.stack_pointer - 2) (vm.stack.getD (vm.stack_pointer - 2) 0) = vm.stack := list_set_getD_self _ _ (by omega)
  have hset2 : vm.stack.set (vm.stack_pointer - 1) (vm.stack.getD (vm.stack_pointer - 1) 0) = vm.stack := list_set_getD_self _ _ (by omega)
  by_cases hbr : vm.stack.getD (vm.stack_pointer - 1) 0 = vm.stack.getD (vm.stack_pointer - 1 - 1) 0
  · have e3 : ({ vm with stack_pointer := vm.stack_pointer - 1 - 1 } : VM).stack_push (vm.stack.getD (vm.stack_pointer - 1 - 1) 0) = .ok { vm with stack := vm.stack.set (vm.stack_pointer - 1 - 1) (vm.stack.getD (vm.stack_pointer - 1 - 1) 0), stack_pointer := vm.stack_pointer - 1 - 1 + 1 } := stack_push_ok (show vm.stack_pointer - 1 - 1 < STACK_SIZE by omega)
    have hset1' : vm.stack.set (vm.stack_pointer - 1 - 1) (vm.stack.getD (vm.stack_pointer - 1 - 1) 0) = vm.stack := by rw [hidx]; exact hset1
    have e4 : ({ vm with stack := vm.stack.set (vm.stack_pointer - 1 - 1) (vm.stack.getD (vm.stack_pointer - 1 - 1) 0), stack_pointer := vm.stack_pointer - 1 - 1 + 1 } : VM).stack_push (vm.stack.getD (vm.stack_pointer - 1) 0) = .ok { vm with stack := (vm.stack.set (vm.stack_pointer - 1 - 1) (vm.stack.getD (vm.stack_pointer - 1 - 1) 0)).set (vm.stack_pointer - 1 - 1 + 1) (vm.stack.getD (vm.stack_pointer - 1) 0), stack_pointer := vm.stack_pointer - 1 - 1 + 1 + 1 } := stack_push_ok (show vm.stack_pointer - 1 - 1 + 1 < STACK_SIZE by omega)
    unfold VM.execute_one
    rw [hi]
    simp only [e1, except_bind_ok, e2]
    rw [if_neg (fun h => h hbr)]
    simp only [e3, except_bind_ok, e4]
    refine ⟨_, rfl, ?_, ?_, ?_, ?_, ?_, ?_⟩
    · show (vm.stack.set (vm.stack_pointer - 1 - 1) (vm.stack.getD (vm.stack_pointer - 1 - 1) 0)).set (vm.stack_pointer - 1 - 1 + 1) (vm.stack.getD (vm.stack_pointer - 1) 0) = vm.stack
      rw [hset1']
      have h11 : vm.stack_pointer - 1 - 1 + 1 = vm.stack_pointer - 1 := by omega
      rw [h11]
      exact hset2
    · show vm.stack_pointer - 1 - 1 + 1 + 1 = vm.stack_pointer
      omega
    · rfl
    · rfl
    · intro hnev
      rw [← hidx] at hnev
      exact absurd hbr hnev
    · intro _
      show vm.program_pointer + 1 = vm.program_pointer + 1
      rfl
  · have e3 : ({ vm with stack_pointer := vm.stack_pointer - 1 - 1, program_pointer := t } : VM).stack_push (vm.stack.getD (vm.stack_pointer - 1 - 1) 0) = .ok { vm with stack := vm.stack.set (vm.stack_pointer - 1 - 1) (vm.stack.getD (vm.stack_pointer - 1 - 1) 0), stack_pointer := vm.stack_pointer - 1 - 1 + 1, program_pointer := t } := stack_push_ok (show vm.stack_pointer - 1 - 1 < STACK_SIZE by omega)
    have hset1' : vm.stack.set (vm.stack_pointer - 1 - 1) (vm.stack.getD (vm.stack_pointer - 1 - 1) 0) = vm.stack := by rw [hidx]; exact hset1
    have e4 : ({ vm with stack := vm.stack.set (vm.stack_pointer - 1 - 1) (vm.stack.getD (vm.stack_pointer - 1 - 1) 0), stack_pointer := vm.stack_pointer - 1 - 1 + 1, program_pointer := t } : VM).stack_push (vm.stack.getD (vm.stack_pointer - 1) 0) = .ok { vm with stack := (vm.stack.set (vm.stack_pointer - 1 - 1) (vm.stack.getD (vm.stack_pointer - 1 - 1) 0)).set (vm.stack_pointer - 1 - 1 + 1) (vm.stack.getD (vm.stack_pointer - 1) 0), stack_pointer := vm.stack_pointer - 1 - 1 + 1 + 1, program_pointer := t } := stack_push_ok (show vm.stack_pointer - 1 - 1 + 1 < STACK_SIZE by omega)
    unfold VM.execute_one
    rw [hi]
    simp only [e1, except_bind_ok, e2]
    rw [if_pos hbr]
    simp only [e3, except_bind_ok, e4]
    refine ⟨_, rfl, ?_, ?_, ?_, ?_, ?_, ?_⟩
    · show (vm.stack.set (vm.stack_pointer - 1 - 1) (vm.stack.getD (vm.stack_pointer - 1 - 1) 0)).set (vm.stack_pointer - 1 - 1 + 1) (vm.stack.getD (vm.stack_pointer - 1) 0) = vm.stack
      rw [hset1']
      have h11 : vm.stack_pointer - 1 - 1 + 1 = vm.stack_pointer - 1 := by omega
      rw [h11]
      exact hset2
    · show vm.stack_pointer - 1 - 1 + 1 + 1 = vm.stack_pointer
      omega
    · rfl
    · rfl
    · intro _
      rfl
    · intro heqv
      rw [← hidx] at heqv
      exact absurd heqv hbr

theorem exec_add {prog : Program} {vm : VM}
    (hi : prog.get vm.program_pointer = .Add)
    (h2 : 2 ≤ vm.stack_pointer) (h128 : vm.stack_pointer ≤ STACK_SIZE) :
    ∃ vm', vm.execute_one prog = .ok (true, vm') ∧
      vm'.overflow = decide (256 ≤ vm.stack.getD (vm.stack_pointer - 1) 0 +
        vm.stack.getD (vm.stack_pointer - 2) 0) ∧
      vm'.stack_pointer = vm.stack_pointer - 1 ∧
      vm'.program_pointer = vm.program_pointer + 1 ∧
      vm'.stack = vm.stack.set (vm.stack_pointer - 2)
        ((vm.stack.getD (vm.stack_pointer - 1) 0 + vm.stack.getD (vm.stack_pointer - 2) 0) % 256) := by
  have e1 : vm.stack_pop = .ok (vm.stack.getD (vm.stack_pointer - 1) 0, { vm with stack_pointer := vm.stack_pointer - 1 }) := stack_pop_ok (by omega)
  have e2 : ({ vm with stack_pointer := vm.stack_pointer - 1 } : VM).stack_pop = .ok (vm.stack.getD (vm.stack_pointer - 1 - 1) 0, { vm with stack_pointer := vm.stack_pointer - 1 - 1 }) := stack_pop_ok (show vm.stack_pointer - 1 ≠ 0 by omega)
  have hidx : vm.stack_pointer - 1 - 1 = vm.stack_pointer - 2 := by omega
  have e3 : ({ vm with stack_pointer := vm.stack_pointer - 1 - 1 } : VM).stack_push ((vm.stack.getD (vm.stack_pointer - 1) 0 + vm.stack.getD (vm.stack_pointer - 1 - 1) 0) % 256) = .ok { vm with stack := vm.stack.set (vm.stack_pointer - 1 - 1) ((vm.stack.getD (vm.stack_pointer - 1) 0 + vm.stack.getD (vm.stack_pointer - 1 - 1) 0) % 256), stack_pointer := vm.stack_pointer - 1 - 1 + 1 } := stack_push_ok (show vm.stack_pointer - 1 - 1 < STACK_SIZE by omega)
  unfold VM.execute_one
  rw [hi]
  simp only [e1, except_bind_ok, e2, overflowing_add, e3]
  refine ⟨_, rfl, ?_, ?_, ?_, ?_⟩
  · show decide (256 ≤ vm.stack.getD (vm.stack_pointer - 1) 0 + vm.stack.getD (vm.stack_pointer - 1 - 1) 0) = _
    rw [hidx]
  · show vm.stack_pointer - 1 - 1 + 1 = vm.stack_pointer - 1
    omega
  · rfl
  · show vm.stack.set (vm.stack_pointer - 1 - 1) ((vm.stack.getD (vm.stack_pointer - 1) 0 + vm.stack.getD (vm.stack_pointer - 1 - 1) 0) % 256) = _
    rw [hidx]

theorem exec_sub {prog : Program} {vm : VM}
    (hi : prog.get vm.program_pointer = .Sub)
    (h2 : 2 ≤ vm.stack_pointer) (h128 : vm.stack_pointer ≤ STACK_SIZE) :
    ∃ vm', vm.execute_one prog = .ok (true, vm') ∧
      vm'.overflow = decide (vm.stack.getD (vm.stack_pointer - 1) 0 <
        vm.stack.getD (vm.stack_pointer - 2) 0) ∧
      vm'.stack_pointer = vm.stack_pointer - 1 ∧
      vm'.program_pointer = vm.program_pointer + 1 ∧
      vm'.stack = vm.stack.set (vm.stack_pointer - 2)
        ((vm.stack.getD (vm.stack_pointer - 1) 0 + 256 - vm.stack.getD (vm.stack_pointer - 2) 0) % 256) := by
  have e1 : vm.stack_pop = .ok (vm.stack.getD (vm.stack_pointer - 1) 0, { vm with stack_pointer := vm.stack_pointer - 1 }) := stack_pop_ok (by omega)
  have e2 : ({ vm with stack_pointer := vm.stack_pointer - 1 } : VM).stack_pop = .ok (vm.stack.getD (vm.stack_pointer - 1 - 1) 0, { vm with stack_pointer := vm.stack_pointer - 1 - 1 }) := stack_pop_ok (show vm.stack_pointer - 1 ≠ 0 by omega)
  have hidx : vm.stack_pointer - 1 - 1 = vm.stack_pointer - 2 := by omega
  have e3 : ({ vm with stack_pointer := vm.stack_pointer - 1 - 1 } : VM).stack_push ((vm.stack.getD (vm.stack_pointer - 1) 0 + 256 - vm.stack.getD (vm.stack_pointer - 1 - 1) 0) % 256) = .ok { vm with stack := vm.stack.set (vm.stack_pointer - 1 - 1) ((vm.stack.getD (vm.stack_pointer - 1) 0 + 256 - vm.stack.getD (vm.stack_pointer - 1 - 1) 0) % 256), stack_pointer := vm.stack_pointer - 1 - 1 + 1 } := stack_push_ok (show vm.stack_pointer - 1 - 1 < STACK_SIZE by omega)
  unfold VM.execute_one
  rw [hi]
  simp only [e1, except_bind_ok, e2, overflowing_sub, e3]
  refine ⟨_, rfl, ?_, ?_, ?_, ?_⟩
  · show decide (vm.stack.getD (vm.stack_pointer - 1) 0 < vm.stack.getD (vm.stack_pointer - 1 - 1) 0) = _
    rw [hidx]
  · show vm.stack_pointer - 1 - 1 + 1 = vm.stack_pointer - 1
    omega
  · rfl
  · show vm.stack.set (vm.stack_pointer - 1 - 1) ((vm.stack.getD (vm.stack_pointer - 1) 0 + 256 - vm.stack.getD (vm.stack_pointer - 1 - 1) 0) % 256) = _
    rw [hidx]

theorem exec_div_zero {prog : Program} {vm : VM}
    (hi : prog.get vm.program_pointer = .Div)
    (h2 : 2 ≤ vm.stack_pointer)
    (hz : vm.stack.getD (vm.stack_pointer - 2) 0 = 0) :
    vm.execute_one prog = .error .divisionByZero := by
  have e1 : vm.stack_pop = .ok (vm.stack.getD (vm.stack_pointer - 1) 0, { vm with stack_pointer := vm.stack_pointer - 1 }) := stack_pop_ok (by omega)
  have e2 : ({ vm with stack_pointer := vm.stack_pointer - 1 } : VM).stack_pop = .ok (vm.stack.getD (vm.stack_pointer - 1 - 1) 0, { vm with stack_pointer := vm.stack_pointer - 1 - 1 }) := stack_pop_ok (show vm.stack_pointer - 1 ≠ 0 by omega)
  have hidx : vm.stack_pointer - 1 - 1 = vm.stack_pointer - 2 := by omega
  have hz' : vm.stack.getD (vm.stack_pointer - 1 - 1) 0 = 0 := by rw [hidx]; exact hz
  unfold VM.execute_one
  rw [hi]
  simp only [e1, except_bind_ok, e2]
  rw [if_pos hz']

theorem exec_pushstr {prog : Program} {vm : VM} {s : String}
    (hi : prog.get vm.program_pointer = .PushStr s)
    (hlen : vm.stack.length = STACK_SIZE)
    (hroom : vm.stack_pointer + s.data.length + 1 ≤ STACK_SIZE) :
    ∃ vm', vm.execute_one prog = .ok (true, vm') ∧
      vm'.stack_pointer = vm.stack_pointer + s.data.length + 1 ∧
      vm'.logicalStack = s.data.map charToByte ++ 0 :: vm.logicalStack ∧
      vm'.program_pointer = vm.program_pointer + 1 ∧
      vm'.overflow = vm.overflow ∧ vm'.output = vm.output := by
  have hlt : vm.stack_pointer < STACK_SIZE := by omega
  have e0 : vm.stack_push 0 = .ok { vm with stack := vm.stack.set vm.stack_pointer 0, stack_pointer := vm.stack_pointer + 1 } := stack_push_ok hlt
  have hlen1 : ({ vm with stack := vm.stack.set vm.stack_pointer 0, stack_pointer := vm.stack_pointer + 1 } : VM).stack.length = STACK_SIZE := by simpa using hlen
  have hroom1 : ({ vm with stack := vm.stack.set vm.stack_pointer 0, stack_pointer := vm.stack_pointer + 1 } : VM).stack_pointer + (s.data.reverse.map charToByte).length ≤ STACK_SIZE := by
    show vm.stack_pointer + 1 + (s.data.reverse.map charToByte).length ≤ STACK_SIZE
    simp only [List.length_map, List.length_reverse]
    omega
  obtain ⟨vm2, hpl, pa, pb, pc, pd, pe, pls⟩ := pushList_ok hlen1 hroom1
  have pa' : vm2.program_pointer = vm.program_pointer := pa
  have pb' : vm2.overflow = vm.overflow := pb
  have pc' : vm2.output = vm.output := pc
  have pe' : vm2.stack_pointer = vm.stack_pointer + 1 + (s.data.reverse.map charToByte).length := pe
  have pls' : vm2.logicalStack = (s.data.reverse.map charToByte).reverse ++ ({ vm with stack := vm.stack.set vm.stack_pointer 0, stack_pointer := vm.stack_pointer + 1 } : VM).logicalStack := pls
  have hls0 : ({ vm with stack := vm.stack.set vm.stack_pointer 0, stack_pointer := vm.stack_pointer + 1 } : VM).logicalStack = 0 :: vm.logicalStack := logicalStack_push (by omega)
  unfold VM.execute_one
  rw [hi]
  simp only [e0, except_bind_ok, hpl]
  refine ⟨_, rfl, ?_, ?_, ?_, ?_, ?_⟩
  · show vm2.stack_pointer = vm.stack_pointer + s.data.length + 1
    rw [pe']
    simp only [List.length_map, List.length_reverse]
    omega
  · show vm2.logicalStack = s.data.map charToByte ++ 0 :: vm.logicalStack
    rw [pls', hls0]
    simp [List.map_reverse]
  · show vm2.program_pointer + 1 = vm.program_pointer + 1
    rw [pa']
  · show vm2.overflow = vm.overflow
    exact pb'
  · show vm2.output = vm.output
    exact pc'

theorem exec_stdcall3_inbounds {prog : Program} {vm : VM}
    (hi : prog.get vm.program_pointer = .StdCall 3)
    (hlt : vm.stack_pointer < vm.stack.length) (h128 : vm.stack_pointer < STACK_SIZE) :
    ∃ vm', vm.execute_one prog = .ok (true, vm') ∧
      vm'.stack = vm.stack.set vm.stack_pointer (vm.stack.getD vm.stack_pointer 0) ∧
      vm'.stack_pointer = vm.stack_pointer + 1 ∧
      vm'.program_pointer = vm.program_pointer + 1 ∧
      vm'.overflow = vm.overflow ∧ vm'.output = vm.output := by
  have e3 : vm.stack_push (vm.stack.getD vm.stack_pointer 0) = .ok { vm with stack := vm.stack.set vm.stack_pointer (vm.stack.getD vm.stack_pointer 0), stack_pointer := vm.stack_pointer + 1 } := stack_push_ok h128
  unfold VM.execute_one
  rw [hi]
  simp only []
  rw [if_neg (show ¬ (wrap8 3 = 0) from by decide),
      if_neg (show ¬ (wrap8 3 = 1) from by decide),
      if_neg (show ¬ (wrap8 3 = 2) from by decide),
      if_pos (show wrap8 3 = 3 from by decide),
      if_pos hlt]
  simp only [e3, except_bind_ok]
  exact ⟨_, rfl, rfl, rfl, rfl, rfl, rfl⟩

theorem exec_stdcall3_oob {prog : Program} {vm : VM}
    (hi : prog.get vm.program_pointer = .StdCall 3)
    (hge : ¬ (vm.stack_pointer < vm.stack.length)) :
    vm.execute_one prog = .error .indexOutOfBounds := by
  unfold VM.execute_one
  rw [hi]
  simp only []
  rw [if_neg (show ¬ (wrap8 3 = 0) from by decide),
      if_neg (show ¬ (wrap8 3 = 1) from by decide),
      if_neg (show ¬ (wrap8 3 = 2) from by decide),
      if_pos (show wrap8 3 = 3 from by decide),
      if_neg hge]

theorem execute_error_propagation {prog : Program} {vm : VM} {e : VMError} (fuel : Nat)
    (h : vm.execute_one prog = .error e) :
    vm.execute (fuel + 1) prog = .error e := by
  unfold VM.execute
  rw [h]
  rfl

/-! ### Claim theorems -/

/-- Claim C1: for every program and every index, `Program::get` returns the
stored instruction when the index is within bounds and the `Interupt` (Halt)
instruction when it is out of bounds; being a Lean function it is total over
all index inputs and never fails. -/
theorem claim_C1_get_total (p : Program) (index : Nat) :
    (∀ h : index < p.instructions.length, p.get index = p.instructions.get ⟨index, h⟩) ∧
    (p.instructions.length ≤ index → p.get index = Instruction.Interupt) := by
  constructor
  · intro h
    simp [Program.get, List.getD_eq_getElem?_getD, List.getElem?_eq_getElem h,
      List.get_eq_getElem]
  · intro h
    simp [Program.get, List.getD_eq_getElem?_getD, List.getElem?_eq_none h]

/-- Witness for C1 at a concrete program: index 0 is in bounds and returns
the stored instruction, index 5 is out of bounds and returns Halt. -/
theorem claim_C1_get_total_witness :
    pushProgW.get 0 = Instruction.Push 5 ∧ pushProgW.get 5 = Instruction.Interupt :=
  ⟨(claim_C1_get_total pushProgW 0).1 (by decide),
   (claim_C1_get_total pushProgW 5).2 (by decide)⟩

/-- Claim C2 counterexample: the Halt (`Interupt`) instruction is not a jump,
yet a successful `execute_one` on it leaves the program cursor unchanged
instead of advancing it by one — refuting the claim that every instruction
other than a taken jump advances the cursor. -/
theorem claim_C2_counterexample :
    VM.new.execute_one haltProg = .ok (false, VM.new) ∧
    haltProg.get VM.new.program_pointer = Instruction.Interupt ∧
    VM.new.program_pointer ≠ VM.new.program_pointer + 1 := by
  refine ⟨by decide, by decide, by decide⟩

/-- Claim C2 (amended): a successful `execute_one` advances the program
cursor by exactly one for every instruction except `Jmp`, a taken `JmpEq`, a
taken `JmpNeq` — which set the cursor to the jump target without an extra
advance — and `Interupt`, which stops execution with the cursor unchanged. -/
theorem claim_C2_cursor_advance (prog : Program) (vm : VM) (c : Bool) (vm' : VM)
    (hstep : vm.execute_one prog = .ok (c, vm')) :
    (∀ t, prog.get vm.program_pointer = .Jmp t → vm'.program_pointer = t) ∧
    (∀ t, prog.get vm.program_pointer = .JmpEq t →
      (vm.stack.getD (vm.stack_pointer - 1) 0 = vm.stack.getD (vm.stack_pointer - 2) 0 →
        vm'.program_pointer = t) ∧
      (vm.stack.getD (vm.stack_pointer - 1) 0 ≠ vm.stack.getD (vm.stack_pointer - 2) 0 →
        vm'.program_pointer = vm.program_pointer + 1)) ∧
    (∀ t, prog.get vm.program_pointer = .JmpNeq t →
      (vm.stack.getD (vm.stack_pointer - 1) 0 ≠ vm.stack.getD (vm.stack_pointer - 2) 0 →
        vm'.program_pointer = t) ∧
      (vm.stack.getD (vm.stack_pointer - 1) 0 = vm.stack.getD (vm.stack_pointer - 2) 0 →
        vm'.program_pointer = vm.program_pointer + 1)) ∧
    (prog.get vm.program_pointer = .Interupt →
      vm'.program_pointer = vm.program_pointer ∧ c = false) ∧
    ((∀ t, prog.get vm.program_pointer ≠ .Jmp t) →
      (∀ t, prog.get vm.program_pointer ≠ .JmpEq t) →
      (∀ t, prog.get vm.program_pointer ≠ .JmpNeq t) →
      prog.get vm.program_pointer ≠ .Interupt →
      vm'.program_pointer = vm.program_pointer + 1) := by
  obtain ⟨_, _, _, h4, h5, h6, h7, h8⟩ := execute_one_inv hstep
  exact ⟨h4, h5, h6, h7, h8⟩

/-- Witness for the amended C2 at a concrete input: `Push 5` is none of the
exempted instructions, and the cursor advances from 0 to 1. -/
theorem claim_C2_cursor_advance_witness :
    VM.new.execute_one pushProgW = .ok (true, vmPush5) ∧
    vmPush5.program_pointer = VM.new.program_pointer + 1 :=
  ⟨by decide,
   (claim_C2_cursor_advance pushProgW VM.new true vmPush5 (by decide)).2.2.2.2
     (fun _ h => Instruction.noConfusion h) (fun _ h => Instruction.noConfusion h)
     (fun _ h => Instruction.noConfusion h) (fun h => Instruction.noConfusion h)⟩

/-- Claim C3: on a state with at least two stack bytes, `JmpEq`/`JmpNeq`
succeed and leave the stack array and the stack cursor exactly as they were,
whether or not the branch is taken. -/
theorem claim_C3_cmp_stack_unchanged (prog : Program) (vm : VM) (t : Nat)
    (hi : prog.get vm.program_pointer = .JmpEq t ∨ prog.get vm.program_pointer = .JmpNeq t)
    (h2 : 2 ≤ vm.stack_pointer) (h128 : vm.stack_pointer ≤ STACK_SIZE)
    (hlen : vm.stack.length = STACK_SIZE) :
    ∃ vm', vm.execute_one prog = .ok (true, vm') ∧ vm'.stack = vm.stack ∧
      vm'.stack_pointer = vm.stack_pointer := by
  rcases hi with hi | hi
  · obtain ⟨vm', ha, hb, hc, _⟩ := exec_jmpeq hi h2 h128 hlen
    exact ⟨vm', ha, hb, hc⟩
  · obtain ⟨vm', ha, hb, hc, _⟩ := exec_jmpneq hi h2 h128 hlen
    exact ⟨vm', ha, hb, hc⟩

/-- Witness for C3 at a concrete input: a taken `JmpEq` on two equal bytes
leaves the stack untouched. -/
theorem claim_C3_cmp_stack_unchanged_witness :
    ∃ vm', vmTwo.execute_one jeProg = .ok (true, vm') ∧ vm'.stack = vmTwo.stack ∧
      vm'.stack_pointer = vmTwo.stack_pointer :=
  claim_C3_cmp_stack_unchanged jeProg vmTwo 5 (Or.inl (by decide)) (by decide)
    (by decide) (by decide)

/-- Claim C9: every non-faulting `execute_one` step preserves the invariant
`stack_pointer ≤ 128`, so it holds at every instruction boundary of a run
from the initial state (whose cursor is 0). -/
theorem claim_C9_sp_invariant (prog : Program) (vm : VM) (c : Bool) (vm' : VM)
    (hinv : vm.stack_pointer ≤ STACK_SIZE)
    (hstep : vm.execute_one prog = .ok (c, vm')) :
    vm'.stack_pointer ≤ STACK_SIZE :=
  (execute_one_inv hstep).2.1 hinv

/-- Witness for C9 at a concrete input: a step of the empty program from the
initial state keeps the cursor within capacity. -/
theorem claim_C9_sp_invariant_witness :
    VM.new.execute_one Program.new = .ok (false, VM.new) ∧
    VM.new.stack_pointer ≤ STACK_SIZE :=
  ⟨by decide,
   claim_C9_sp_invariant Program.new VM.new false VM.new (by decide) (by decide)⟩

/-- Claim C4: after `Add` (resp. `Sub`) on a state with at least two stack
bytes the overflow flag is exactly the wrapped-bit of the 8-bit wrapping
addition (resp. subtraction) of the two popped operands, and no instruction
other than `Add` and `Sub` changes the flag on a successful step. -/
theorem claim_C4_overflow_flag :
    (∀ (prog : Program) (vm : VM), prog.get vm.program_pointer = .Add →
      2 ≤ vm.stack_pointer → vm.stack_pointer ≤ STACK_SIZE →
      ∃ vm', vm.execute_one prog = .ok (true, vm') ∧
        vm'.overflow = decide (256 ≤ vm.stack.getD (vm.stack_pointer - 1) 0 +
          vm.stack.getD (vm.stack_pointer - 2) 0) ∧
        (vm'.overflow = true ↔
          (vm.stack.getD (vm.stack_pointer - 1) 0 +
              vm.stack.getD (vm.stack_pointer - 2) 0) % 256 ≠
            vm.stack.getD (vm.stack_pointer - 1) 0 +
              vm.stack.getD (vm.stack_pointer - 2) 0)) ∧
    (∀ (prog : Program) (vm : VM), prog.get vm.program_pointer = .Sub →
      2 ≤ vm.stack_pointer → vm.stack_pointer ≤ STACK_SIZE →
      ∃ vm', vm.execute_one prog = .ok (true, vm') ∧
        vm'.overflow = decide (vm.stack.getD (vm.stack_pointer - 1) 0 <
          vm.stack.getD (vm.stack_pointer - 2) 0) ∧
        (vm.stack.getD (vm.stack_pointer - 1) 0 < 256 →
          vm.stack.getD (vm.stack_pointer - 2) 0 < 256 →
          (vm'.overflow = true ↔
            (((vm.stack.getD (vm.stack_pointer - 1) 0 + 256 -
                vm.stack.getD (vm.stack_pointer - 2) 0) % 256 : Nat) : Int) ≠
              (vm.stack.getD (vm.stack_pointer - 1) 0 : Int) -
                (vm.stack.getD (vm.stack_pointer - 2) 0 : Int)))) ∧
    (∀ (prog : Program) (vm : VM) (c : Bool) (vm' : VM),
      vm.execute_one prog = .ok (c, vm') →
      prog.get vm.program_pointer ≠ .Add → prog.get vm.program_pointer ≠ .Sub →
      vm'.overflow = vm.overflow) := by
  refine ⟨?_, ?_, ?_⟩
  · intro prog vm hi h2 h128
    obtain ⟨vm', ha, hb, _⟩ := exec_add hi h2 h128
    refine ⟨vm', ha, hb, ?_⟩
    rw [hb]
    simp only [decide_eq_true_eq]
    omega
  · intro prog vm hi h2 h128
    obtain ⟨vm', ha, hb, _⟩ := exec_sub hi h2 h128
    refine ⟨vm', ha, hb, ?_⟩
    intro hl hr
    rw [hb]
    simp only [decide_eq_true_eq]
    omega
  · intro prog vm c vm' hstep hA hS
    exact (execute_one_inv hstep).2.2.1 hA hS

/-- Witness for C4 at a concrete input: adding 200 and 100 wraps and sets
the flag. -/
theorem claim_C4_overflow_flag_witness :
    (∃ vm', vmAddW.execute_one addProg = .ok (true, vm') ∧
      vm'.overflow = decide (256 ≤ vmAddW.stack.getD (vmAddW.stack_pointer - 1) 0 +
        vmAddW.stack.getD (vmAddW.stack_pointer - 2) 0) ∧
      (vm'.overflow = true ↔
        (vmAddW.stack.getD (vmAddW.stack_pointer - 1) 0 +
            vmAddW.stack.getD (vmAddW.stack_pointer - 2) 0) % 256 ≠
          vmAddW.stack.getD (vmAddW.stack_pointer - 1) 0 +
            vmAddW.stack.getD (vmAddW.stack_pointer - 2) 0)) ∧
    decide (256 ≤ vmAddW.stack.getD (vmAddW.stack_pointer - 1) 0 +
      vmAddW.stack.getD (vmAddW.stack_pointer - 2) 0) = true :=
  ⟨claim_C4_overflow_flag.1 addProg vmAddW (by decide) (by decide) (by decide),
   by decide⟩

/-- Claim C5: `PushStr s` pushes the terminator 0 and then the characters of
`s` in reverse, so the stack cursor grows by `len s + 1` and the logical
stack (top first) reads the characters of `s` in forward order followed by a
zero byte on top of the old contents. -/
theorem claim_C5_pushstr (prog : Program) (vm : VM) (s : String)
    (hi : prog.get vm.program_pointer = .PushStr s)
    (hlen : vm.stack.length = STACK_SIZE)
    (hroom : vm.stack_pointer + s.data.length + 1 ≤ STACK_SIZE) :
    ∃ vm', vm.execute_one prog = .ok (true, vm') ∧
      vm'.stack_pointer = vm.stack_pointer + s.data.length + 1 ∧
      vm'.logicalStack = s.data.map charToByte ++ 0 :: vm.logicalStack := by
  obtain ⟨vm', ha, hb, hc, _⟩ := exec_pushstr hi hlen hroom
  exact ⟨vm', ha, hb, hc⟩

/-- Witness for C5 at the spec's test vector: pushing the three-character
string then popping yields 97, 98, 99 (the bytes of the characters in
forward order) and finally 0. -/
theorem claim_C5_pushstr_witness :
    (∃ vm', VM.new.execute_one abcProg = .ok (true, vm') ∧
      vm'.stack_pointer = VM.new.stack_pointer + sAbc.data.length + 1 ∧
      vm'.logicalStack = sAbc.data.map charToByte ++ 0 :: VM.new.logicalStack) ∧
    VM.new.execute_one abcProg = .ok (true, vmAbc) ∧
    vmAbc.logicalStack = [97, 98, 99, 0] ∧
    vmAbc.stack_pop = .ok (97, { vmAbc with stack_pointer := 3 }) ∧
    ({ vmAbc with stack_pointer := 3 } : VM).stack_pop =
      .ok (98, { vmAbc with stack_pointer := 2 }) ∧
    ({ vmAbc with stack_pointer := 2 } : VM).stack_pop =
      .ok (99, { vmAbc with stack_pointer := 1 }) ∧
    ({ vmAbc with stack_pointer := 1 } : VM).stack_pop =
      .ok (0, { vmAbc with stack_pointer := 0 }) :=
  ⟨claim_C5_pushstr abcProg VM.new sAbc (by decide) (by decide) (by decide),
   by decide, by decide, by decide, by decide, by decide, by decide⟩

/-- Claim C6: a push at capacity faults with `stackOverflow`, a pop on the
empty stack faults with `stackUnderflow`, a `Div` whose divisor operand is
zero faults with `divisionByZero` — three distinct error values — and any
`execute_one` fault makes the run loop `execute` stop with that error. -/
theorem claim_C6_faults :
    (∀ (vm : VM) (v : Nat), vm.stack_pointer = STACK_SIZE →
      vm.stack_push v = .error .stackOverflow) ∧
    (∀ vm : VM, vm.stack_pointer = 0 → vm.stack_pop = .error .stackUnderflow) ∧
    (∀ (prog : Program) (vm : VM), prog.get vm.program_pointer = .Div →
      2 ≤ vm.stack_pointer → vm.stack.getD (vm.stack_pointer - 2) 0 = 0 →
      vm.execute_one prog = .error .divisionByZero) ∧
    (∀ (fuel : Nat) (prog : Program) (vm : VM) (e : VMError),
      vm.execute_one prog = .error e → vm.execute (fuel + 1) prog = .error e) := by
  refine ⟨?_, ?_, ?_, ?_⟩
  · intro vm v h
    unfold VM.stack_push
    rw [if_pos (by omega)]
  · intro vm h
    unfold VM.stack_pop
    rw [if_pos h]
  · intro prog vm hi h2 hz
    exact exec_div_zero hi h2 hz
  · intro fuel prog vm e h
    exact execute_error_propagation fuel h

/-- Witness for C6 at concrete inputs: each fault fires and stops a run. -/
theorem claim_C6_faults_witness :
    vmFull.stack_push 9 = .error .stackOverflow ∧
    VM.new.stack_pop = .error .stackUnderflow ∧
    vmDivZ.execute_one divProg = .error .divisionByZero ∧
    vmDivZ.execute (9 + 1) divProg = .error .divisionByZero :=
  ⟨claim_C6_faults.1 vmFull 9 (by decide),
   claim_C6_faults.2.1 VM.new (by decide),
   claim_C6_faults.2.2.1 divProg vmDivZ (by decide) (by decide) (by decide),
   claim_C6_faults.2.2.2 9 divProg vmDivZ .divisionByZero
     (claim_C6_faults.2.2.1 divProg vmDivZ (by decide) (by decide) (by decide))⟩

/-- Claim C7, code evaluation at the failing input: the code truncates the
`StdCall` id to a byte, so id 256 is silently run as the `PrintU8` routine
(popping and printing the 5) rather than faulting, and an id whose low byte
is not a `StdFunc` discriminant (4) reaches the undefined behavior of
`transmute` — there is no `InvalidStandardCallId` fault in the code. -/
theorem claim_C7_code_eval :
    vm256.execute_one prog256 = .ok (true, { vm256 with stack_pointer := 0, program_pointer := 1, output := [OutEvent.printU8 5] }) ∧
    VM.new.execute_one prog4 = .error .undefinedBehavior := by
  refine ⟨by decide, by decide⟩

/-- Claim C8 counterexample: the program exactly as the claim lists it —
`[Push 10, Push 0, JmpEq 5, Push 1, Add, Jmp 1]` — does not terminate after
ten iterations with stack `[0, 10]`: its loop body grows the stack by one
byte per iteration and the run faults with `stackOverflow` (700 steps of
fuel are more than enough to reach the fault at step 634). -/
theorem claim_C8_counterexample :
    VM.new.execute 700 claimLoopProg = .error .stackOverflow := by decide

/-- Claim C8 (amended): the loop program from the source's own comment —
`[Push 10, Push 0, JmpEq 6, Push 1, Add, Jmp 2]`, whose comparison jumps
past the end where the out-of-range policy yields Halt — terminates from a
fresh state after exactly 44 executed instructions (ten loop iterations:
43 steps of fuel are not yet enough), with the logical stack holding
`[10, 10]` — limit and counter — at termination. -/
theorem claim_C8_amended_loop :
    VM.new.execute 44 amendLoopProg = .ok (.halted vmLoopFinal) ∧
    vmLoopFinal.logicalStack = [10, 10] ∧
    VM.new.execute 43 amendLoopProg = .ok (.outOfFuel vmLoopFinal) := by
  refine ⟨by decide, by decide, by decide⟩

/-- Claim C10: `StdCall 3` (the `Clone` built-in) reads the stack array at
index `stack_pointer` — one past the logical top, holding whatever was last
written there — and pushes that byte; with a full stack the array read is
out of bounds and fires before the push's capacity check, so the fault is
`indexOutOfBounds`, not `stackOverflow`. -/
theorem claim_C10_stdcall3 (prog : Program) (vm : VM)
    (hi : prog.get vm.program_pointer = .StdCall 3)
    (hlen : vm.stack.length = STACK_SIZE) :
    (vm.stack_pointer < STACK_SIZE →
      ∃ vm', vm.execute_one prog = .ok (true, vm') ∧
        vm'.stack = vm.stack.set vm.stack_pointer (vm.stack.getD vm.stack_pointer 0) ∧
        vm'.stack_pointer = vm.stack_pointer + 1) ∧
    (vm.stack_pointer = STACK_SIZE → vm.execute_one prog = .error .indexOutOfBounds) := by
  constructor
  · intro h
    obtain ⟨vm', ha, hb, hc, _⟩ := exec_stdcall3_inbounds hi (by rw [hlen]; exact h) h
    exact ⟨vm', ha, hb, hc⟩
  · intro h
    exact exec_stdcall3_oob hi (by rw [hlen]; omega)

/-- Witness for C10 at concrete inputs: with top-of-stack 1 and the stale
byte 2 one past the top, `Clone` pushes the 2 (not the top-of-stack 1); with
a full stack the step faults with `indexOutOfBounds`. -/
theorem claim_C10_stdcall3_witness :
    (∃ vm', vmClone.execute_one sc3Prog = .ok (true, vm') ∧
      vm'.stack = vmClone.stack.set vmClone.stack_pointer
        (vmClone.stack.getD vmClone.stack_pointer 0) ∧
      vm'.stack_pointer = vmClone.stack_pointer + 1) ∧
    vmClone.stack.getD vmClone.stack_pointer 0 = 2 ∧
    vmClone.stack.getD (vmClone.stack_pointer - 1) 0 = 1 ∧
    vmFull.execute_one sc3Prog = .error .indexOutOfBounds :=
  ⟨(claim_C10_stdcall3 sc3Prog vmClone (by decide) (by decide)).1 (by decide),
   by decide, by decide,
   (claim_C10_stdcall3 sc3Prog vmFull (by decide) (by decide)).2 (by decide)⟩
